import Mathlib

/-!
Verification of the Veckans Recept grocery-deals/recipe application.

The development embeds, as executable Lean definitions:
* the frontend utility and page logic found in the JavaScript sources
  (`utils.js`, `deals.js`, `lists.js` inside `app.js`), and
* the ingredient-to-deal matching core (`match_recipes.py`), which is not
  present in the snapshot and is therefore modelled from the specification.

Theorems at the end of the file settle the frozen claims about the system.
-/

/- ===================================================================
   Part 1: shared frontend utilities (utils.js)
   =================================================================== -/

/-- One global single-character replacement, the model of JavaScript
`String.prototype.replace` with a single-character global regex:
every occurrence of `c` is replaced by the string `rep`. -/
def replaceAllChar (c : Char) (rep : List Char) : List Char → List Char
  | [] => []
  | x :: xs => (if x = c then rep else [x]) ++ replaceAllChar c rep xs

/-- The apostrophe character, spelled via its code point. -/
def apos : Char := Char.ofNat 39

/-- Core of `Utils.escapeHtml`: the five chained global replaces
`&→&amp;`, `<→&lt;`, `>→&gt;`, `"→&quot;`, `'→&#039;` applied in source order. -/
def escapeHtmlChars (cs : List Char) : List Char :=
  replaceAllChar apos "&#039;".toList
    (replaceAllChar '"' "&quot;".toList
      (replaceAllChar '>' "&gt;".toList
        (replaceAllChar '<' "&lt;".toList
          (replaceAllChar '&' "&amp;".toList cs))))

/-- `Utils.escapeHtml` on an actual string argument: the falsy guard
`if (!str) return ''` (for strings only `""` is falsy) followed by the
replacement chain. -/
def escapeHtml (s : String) : String :=
  if s = "" then "" else String.mk (escapeHtmlChars s.toList)

/-- `Utils.escapeHtml` as called with a possibly `null`/`undefined`
argument: both nullish values are falsy and yield `""`. -/
def escapeHtmlJS : Option String → String
  | none => ""
  | some s => escapeHtml s

/-- Contiguous substring test on character lists (`needle` occurs in the
second argument). -/
def containsSub (needle : List Char) : List Char → Bool
  | [] => needle.isEmpty
  | c :: rest => needle.isPrefixOf (c :: rest) || containsSub needle rest

/-- `Utils.getStoreClass`. -/
def getStoreClass (store : String) : String :=
  if store.startsWith "ICA" then "ica"
  else if containsSub "Coop".toList store.toList then "coop"
  else if store = "Willys" then "willys"
  else ""

/-- `Utils.getShortStoreName` (the `utils.js` variant). -/
def utilsShortStoreName (store : String) : String :=
  if store = "ICA Supermarket" then "ICA"
  else if store = "ICA Nära" then "ICA Nära"
  else if store = "ICA Maxi" then "ICA Maxi"
  else if store = "ICA Kvantum" then "ICA Kvantum"
  else if store = "Stora Coop" then "Stora Coop"
  else if store = "Coop" then "Coop"
  else if store = "Willys" then "Willys"
  else store

/- ===================================================================
   Part 2: deals page (deals.js): selection state
   =================================================================== -/

/-- A deal record as consumed by the frontend (`deals.json` row). -/
structure Deal where
  store : String
  name : String
  price : String
  unit : String
  description : String
  ord_pris : String
  jfr_pris : String
  deriving DecidableEq, Repr

/-- `DealsApp.getDealId`: stable identifier `store|name|price`. -/
def getDealId (deal : Deal) : String :=
  deal.store ++ "|" ++ deal.name ++ "|" ++ deal.price

/-- `DealsApp.toggleSelection(idx)`: look up `filteredDeals[idx]` (an
out-of-range or negative index yields `undefined` and the method returns
with the selection untouched), then delete the deal's id from
`selectedIds` if present, otherwise insert it. -/
def toggleSelection (filteredDeals : List Deal) (selectedIds : Finset String)
    (idx : ℤ) : Finset String :=
  match (if 0 ≤ idx then filteredDeals[idx.toNat]? else none) with
  | none => selectedIds
  | some deal =>
    let id := getDealId deal
    if id ∈ selectedIds then selectedIds.erase id else insert id selectedIds

/- ===================================================================
   Part 3: shopping lists storage (lists.js)
   =================================================================== -/

/-- An item held in a stored shopping list: the deal payload carried by
the item together with the fields `addItems` attaches on insertion. -/
structure StoredItem where
  id : String
  payload : Deal
  checked : Bool
  addedAt : Nat
  deriving DecidableEq, Repr

/-- An item of a batch passed to `ListsStorage.addItems` (a selected deal
plus its precomputed id). -/
structure BatchItem where
  id : String
  payload : Deal
  deriving DecidableEq, Repr

/-- A stored shopping list. -/
structure ShoppingList where
  id : String
  name : String
  createdAt : Nat
  updatedAt : Nat
  items : List StoredItem
  deriving Repr

/-- The spread `{...item, checked: false, addedAt: Date.now()}` used by
`ListsStorage.addItems` when pushing a batch item. -/
def mkStoredItem (item : BatchItem) (now : Nat) : StoredItem :=
  { id := item.id, payload := item.payload, checked := false, addedAt := now }

/-- `ListsStorage.addItems` on a list that exists: snapshot the set of
existing item ids, then walk the batch, counting a duplicate for each
item whose id is in the snapshot and pushing (and counting) every other
item. Returns the updated list together with `(added, duplicates)`. -/
def addItems (list : ShoppingList) (items : List BatchItem) (now : Nat) :
    ShoppingList × Nat × Nat :=
  let existingIds := list.items.map (·.id)
  let step := fun (acc : List StoredItem × Nat × Nat) (item : BatchItem) =>
    if item.id ∈ existingIds then (acc.1, acc.2.1, acc.2.2 + 1)
    else (acc.1 ++ [mkStoredItem item now], acc.2.1 + 1, acc.2.2)
  let r := items.foldl step (list.items, 0, 0)
  ({ list with items := r.1, updatedAt := now }, r.2.1, r.2.2)

/- Helper lemmas about the `addItems` fold. -/

/-- Items appended by `addItems`, computed directly. -/
def addItemsNew (existingIds : List String) (items : List BatchItem) (now : Nat) :
    List StoredItem :=
  (items.filter (fun item => item.id ∉ existingIds)).map (mkStoredItem · now)

/-- A sample deal used by concrete witnesses. -/
def demoDeal : Deal :=
  { store := "ICA Supermarket", name := "Kycklingfilé", price := "99:-",
    unit := "/kg", description := "Färsk", ord_pris := "129:-",
    jfr_pris := "99:-/kg" }

/-- A stored list holding one item, used by the C9 witness. -/
def demoList : ShoppingList :=
  { id := "l1", name := "Att handla", createdAt := 1, updatedAt := 1,
    items := [{ id := "a", payload := demoDeal, checked := false, addedAt := 1 }] }

/-- A two-item batch (one duplicate id, one new), used by the C9 witness. -/
def demoBatch : List BatchItem :=
  [{ id := "a", payload := demoDeal }, { id := "b", payload := demoDeal }]

/- ===================================================================
   Part 4: matching core (match_recipes.py), modelled from the spec
   =================================================================== -/

/-- Modelled from the spec: `match_recipes.py` is absent from the snapshot
(only its documentation, tests and callers are present), so the lexical
configuration of §6 is embedded from the spec's words: synonym table,
ignore words, false-match denylist and the acceptance threshold. -/
structure MatchConfig where
  synonyms : List (String × List String)
  ignoreWords : List String
  falseMatches : List (String × String)
  acceptanceThreshold : ℚ

/-- Modelled from the spec: lower-casing that keeps the Swedish letters
å/ä/ö as letters of the alphabet (§4.1). -/
def swedishLower (c : Char) : Char :=
  if 'A' ≤ c ∧ c ≤ 'Z' then Char.ofNat (c.toNat + 32)
  else if c = 'Å' then 'å'
  else if c = 'Ä' then 'ä'
  else if c = 'Ö' then 'ö'
  else if c = 'É' then 'é'
  else c

/-- Modelled from the spec: accent marks outside the Swedish alphabet are
removed; å/ä/ö are never collapsed (§4.1). -/
def stripForeignAccent (c : Char) : Char :=
  if c = 'é' ∨ c = 'è' ∨ c = 'ê' then 'e'
  else if c = 'á' ∨ c = 'à' then 'a'
  else if c = 'ü' ∨ c = 'û' then 'u'
  else if c = 'ç' then 'c'
  else c

/-- Modelled from the spec: punctuation stripped while preserving word
boundaries (§4.1). -/
def isStrippedPunct (c : Char) : Bool :=
  c == ',' || c == '(' || c == ')' || c == '.' || c == '!' || c == '?' ||
    c == ':' || c == ';'

/-- Whitespace tokenizer used by the normalizer (empty tokens dropped). -/
def splitWords : List Char → List Char → List (List Char)
  | cur, [] => if cur.isEmpty then [] else [cur.reverse]
  | cur, c :: rest =>
    if c.isWhitespace then
      if cur.isEmpty then splitWords [] rest
      else cur.reverse :: splitWords [] rest
    else splitWords (c :: cur) rest

/-- Modelled from the spec: the unit words stripped from the front of an
ingredient line (§4.1). -/
def unitWords : List String :=
  ["dl", "msk", "tsk", "g", "kg", "st", "l", "ml", "krm"]

/-- Modelled from the spec: a token made of digits, fraction and decimal
characters is quantity noise (§4.1). -/
def isQuantityToken (t : String) : Bool :=
  !t.isEmpty &&
    t.toList.all (fun c =>
      c.isDigit || c == '/' || c == '.' || c == '½' || c == '¼' || c == '¾')

/-- Modelled from the spec: leading quantity and unit tokens are stripped
so that "2 dl mjölk" reduces to "mjölk" (§4.1). -/
def dropQuantityUnits : List String → List String
  | [] => []
  | t :: rest =>
    if isQuantityToken t || unitWords.contains t then dropQuantityUnits rest
    else t :: rest

/-- Modelled from the spec: the token sequence of the §4.1 normalizer. -/
def normTokens (s : String) : List String :=
  let cs := (s.toList.map (fun c => stripForeignAccent (swedishLower c))).map
    (fun c => if isStrippedPunct c then ' ' else c)
  dropQuantityUnits ((splitWords [] cs).map String.mk)

/-- Space-joined token list. -/
def joinSpace : List String → String
  | [] => ""
  | [t] => t
  | t :: rest => t ++ " " ++ joinSpace rest

/-- Modelled from the spec: the canonical comparable form produced by the
§4.1 text normalizer. -/
def normalizeText (s : String) : String := joinSpace (normTokens s)

/-- Tokens of an already normalized string. -/
def strTokens (s : String) : List String := (splitWords [] s.toList).map String.mk

/-- Modelled from the spec: resolution of a term to its canonical base
via the synonym table (§3): a string that is a synonym key or one of a
key's variants stands for that key. -/
def baseTerm (syn : List (String × List String)) (s : String) : String :=
  match syn.find? (fun p => p.1 == s || p.2.contains s) with
  | some p => p.1
  | none => s

/-- Modelled from the spec: the FALSE_MATCHES denylist test — the pair of
base terms after synonym resolution is listed (§4.2 rule 1). -/
def isFalseMatch (cfg : MatchConfig) (ni nd : String) : Bool :=
  cfg.falseMatches.any (fun p =>
    p.1 == baseTerm cfg.synonyms ni && p.2 == baseTerm cfg.synonyms nd)

/-- Modelled from the spec: the ignore-word guard — the normalized
ingredient reduces to only IGNORE_WORDS tokens (§4.2 rule 2). -/
def onlyIgnoreTokens (cfg : MatchConfig) (ni : String) : Bool :=
  (strTokens ni).all (fun t => cfg.ignoreWords.contains t)

/-- Modelled from the spec: the minimum meaningful length for the
substring rule; two-character fragments must not trigger it (§4.2 rule 4). -/
def minSubstringLength : Nat := 3

/-- Modelled from the spec: one normalized string contained in the other,
with the contained string long enough (§4.2 rule 4). -/
def substringMatch (a b : String) : Bool :=
  (containsSub a.toList b.toList && minSubstringLength ≤ a.length) ||
    (containsSub b.toList a.toList && minSubstringLength ≤ b.length)

/-- Modelled from the spec: the base term of one side is a synonym key
whose variants are contained in (or equal to) the counterpart (§4.2
rule 5). -/
def synonymMatch (cfg : MatchConfig) (ni nd : String) : Bool :=
  (cfg.synonyms.any fun p =>
    baseTerm cfg.synonyms ni == p.1 &&
      p.2.any (fun v => nd == v || containsSub v.toList nd.toList)) ||
  (cfg.synonyms.any fun p =>
    baseTerm cfg.synonyms nd == p.1 &&
      p.2.any (fun v => ni == v || containsSub v.toList ni.toList))

/-- Modelled from the spec: minimum length of a significant word for the
word-overlap rule (§4.2 rule 6). -/
def minWordLength : Nat := 3

/-- Modelled from the spec: significant words are tokens that are neither
ignore words nor too short (§4.2 rule 6). -/
def significantWords (cfg : MatchConfig) (s : String) : List String :=
  (strTokens s).filter (fun t =>
    !cfg.ignoreWords.contains t && minWordLength ≤ t.length)

/-- Modelled from the spec: at least one significant shared word (§4.2
rule 6). -/
def wordOverlapMatch (cfg : MatchConfig) (ni nd : String) : Bool :=
  (significantWords cfg ni).any (fun w => (significantWords cfg nd).contains w)

/-- One dynamic-programming row step of the longest-common-subsequence
table (`diag`/`left` are the diagonal and left neighbours). -/
def lcsStepAux (c : Char) : List Char → List Nat → Nat → Nat → List Nat
  | [], _, _, _ => []
  | _ :: _, [], _, _ => []
  | b :: bs, p :: ps, diag, left =>
    let cur := if c = b then diag + 1 else max left p
    cur :: lcsStepAux c bs ps p cur

/-- Next LCS table row for one further character of the first string. -/
def lcsRow (c : Char) (bs : List Char) (prev : List Nat) : List Nat :=
  match prev with
  | [] => []
  | p0 :: ps => 0 :: lcsStepAux c bs ps p0 0

/-- Modelled from the spec: length of the longest common subsequence,
computed by the standard row-folding dynamic programme (§9 allows any
standard LCS-ratio algorithm). -/
def lcsLen (as bs : List Char) : Nat :=
  ((as.foldl (fun row c => lcsRow c bs row)
      (List.replicate (bs.length + 1) 0)).getLast?).getD 0

/-- Modelled from the spec: the similarity ratio `2*M/T` of the fuzzy
rule, in `[0, 1]` (§4.2 rule 7). -/
def similarityRatio (a b : List Char) : ℚ :=
  if a.length + b.length = 0 then 0
  else (2 * lcsLen a b : ℚ) / (a.length + b.length : ℚ)

/-- Modelled from the spec: the test `similarityRatio ≥ 0.8` of §4.2
rule 7, evaluated in cleared-denominator integer form. -/
def fuzzyMatch (a b : List Char) : Bool :=
  4 * (a.length + b.length) ≤ 5 * (2 * lcsLen a b)

/-- Score of the substring tier (0.9), in reduced constructor form so
that comparisons evaluate. -/
def tierSubstring : ℚ := ⟨9, 10, by norm_num, by norm_num⟩

/-- Score of the synonym tier (0.85). -/
def tierSynonym : ℚ := ⟨17, 20, by norm_num, by norm_num⟩

/-- Score of the word-overlap tier (0.75). -/
def tierOverlap : ℚ := ⟨3, 4, by norm_num, by norm_num⟩

/-- Score of the fuzzy tier (0.7). -/
def tierFuzzy : ℚ := ⟨7, 10, by norm_num, by norm_num⟩

/-- Modelled from the spec: the §4.2 match scorer, evaluated in the
documented precedence order with first-applicable-wins semantics:
false-match override, ignore-word guard, exact (1.0), substring (0.9),
synonym (0.85), word overlap (0.75), fuzzy (0.7), otherwise no match. -/
def matchScore (cfg : MatchConfig) (ingredient dealName : String) : ℚ :=
  let ni := normalizeText ingredient
  let nd := normalizeText dealName
  if isFalseMatch cfg ni nd then 0
  else if onlyIgnoreTokens cfg ni then 0
  else if ni = nd then 1
  else if substringMatch ni nd then tierSubstring
  else if synonymMatch cfg ni nd then tierSynonym
  else if wordOverlapMatch cfg ni nd then tierOverlap
  else if fuzzyMatch ni.toList nd.toList then tierFuzzy
  else 0

/-- Modelled from the spec: scan of the full deal catalog keeping the
maximum-scoring deal, ties won by the first deal encountered in catalog
order (§4.3). -/
def bestCandidate (cfg : MatchConfig) (ingredient : String) :
    List Deal → Option (Deal × ℚ)
  | [] => none
  | d :: rest =>
    let s := matchScore cfg ingredient d.name
    match bestCandidate cfg ingredient rest with
    | none => some (d, s)
    | some (d', s') => if s < s' then some (d', s') else some (d, s)

/-- Modelled from the spec: `find_matching_deals` — the §4.3 best-deal
selector accepts the kept candidate only if its score is at or above the
acceptance threshold, and otherwise reports no match. -/
def find_matching_deals (cfg : MatchConfig) (ingredient : String)
    (deals : List Deal) : Option (Deal × ℚ) :=
  match bestCandidate cfg ingredient deals with
  | none => none
  | some (d, s) =>
    if cfg.acceptanceThreshold ≤ s then some (d, s) else none

/-- One entry of `matched_ingredients` (§3 MatchResult). -/
structure MatchedIngredient where
  ingredient : String
  deal_store : String
  deal_price : String
  deal_unit : String
  ord_pris : String
  score : ℚ
  deriving DecidableEq, Repr

/-- Modelled from the spec: the per-recipe `MatchResult` record (§3). -/
structure MatchResult where
  total_ingredients : Nat
  matched_count : Nat
  match_percentage : ℚ
  matched_ingredients : List MatchedIngredient
  unmatched_ingredients : List String
  deriving Repr

/-- Modelled from the spec: the §4.4 recipe aggregator — walk the
ingredient list in original order, invoke the best-deal selector for each
ingredient, bucket into matched/unmatched preserving original order, and
compute the match percentage (0 for an empty ingredient list). -/
def matchRecipe (cfg : MatchConfig) (deals : List Deal)
    (ingredients : List String) : MatchResult :=
  let step := fun (acc : List MatchedIngredient × List String) (ing : String) =>
    match find_matching_deals cfg ing deals with
    | some (d, s) =>
      (acc.1 ++ [{ ingredient := ing, deal_store := d.store,
                   deal_price := d.price, deal_unit := d.unit,
                   ord_pris := d.ord_pris, score := s }], acc.2)
    | none => (acc.1, acc.2 ++ [ing])
  let r := ingredients.foldl step ([], [])
  { total_ingredients := ingredients.length
    matched_count := r.1.length
    match_percentage :=
      if ingredients.length = 0 then 0
      else (r.1.length : ℚ) / (ingredients.length : ℚ) * 100
    matched_ingredients := r.1
    unmatched_ingredients := r.2 }

/-- The matched entry the aggregator builds for one ingredient, when the
selector accepts a deal. -/
def matchedEntry (cfg : MatchConfig) (deals : List Deal) (ing : String) :
    Option MatchedIngredient :=
  match find_matching_deals cfg ing deals with
  | some (d, s) =>
    some { ingredient := ing, deal_store := d.store, deal_price := d.price,
           deal_unit := d.unit, ord_pris := d.ord_pris, score := s }
  | none => none

/-- Configuration carrying the documented `("ris", "riskakor")` denylist
entry. -/
def cfgRis : MatchConfig :=
  { synonyms := [], ignoreWords := [],
    falseMatches := [("ris", "riskakor")],
    acceptanceThreshold := ⟨3, 5, by norm_num, by norm_num⟩ }

/-- Shared demo configuration (empty lexical tables, threshold 0.6). -/
def cfgPlain : MatchConfig :=
  { synonyms := [], ignoreWords := [], falseMatches := [],
    acceptanceThreshold := ⟨3, 5, by norm_num, by norm_num⟩ }

/-- Shared demo deal catalog. -/
def demoDeals : List Deal :=
  [{ store := "ICA Supermarket", name := "mjölk", price := "10:-",
     unit := "/l", description := "", ord_pris := "", jfr_pris := "" },
   { store := "ICA Supermarket", name := "ost", price := "15:-",
     unit := "/kg", description := "", ord_pris := "", jfr_pris := "" }]

/- ===================================================================
   Part 5: recipes page renderer (app.js RecipeApp)
   =================================================================== -/

/-- A recipe's nutrition record (`recipes.json` shape). -/
structure NutritionInfo where
  calories : Option String
  protein : Option String
  fat : Option String
  carbs : Option String
  deriving DecidableEq, Repr

/-- The `image` field of a recipe: absent, a single URL or an array. -/
inductive ImageField
  | missing
  | str (s : String)
  | arr (l : List String)
  deriving DecidableEq, Repr

/-- Recipe display metadata carried alongside the match fields in each
`recipe_matches.json` row. -/
structure RecipeMeta where
  name : String
  url : String
  category : String
  image : ImageField
  servings : Option Nat
  time : Option String
  rating : Option ℚ
  reviews : Option Nat
  nutrition : Option NutritionInfo
  deriving DecidableEq, Repr

/-- One `recipe_matches.json` row as consumed by the recipes page:
display metadata plus the match report fields. -/
structure RecipeMatch where
  meta : RecipeMeta
  total_ingredients : Nat
  matched_count : Nat
  match_percentage : ℚ
  matched_ingredients : List MatchedIngredient
  unmatched_ingredients : List String
  deriving DecidableEq, Repr

/-- The projection of a matched-ingredient entry onto the five fields the
frontend contract lists (dropping `score`). -/
structure MatchedIngredientView where
  ingredient : String
  deal_store : String
  deal_price : String
  deal_unit : String
  ord_pris : String
  deriving DecidableEq, Repr

/-- Field projection used to state which match data the renderer reads. -/
def ingredientView (i : MatchedIngredient) : MatchedIngredientView :=
  { ingredient := i.ingredient, deal_store := i.deal_store,
    deal_price := i.deal_price, deal_unit := i.deal_unit,
    ord_pris := i.ord_pris }

/-- The listed match fields of a row: `match_percentage`,
`matched_count`, `total_ingredients`, the five-field view of every
matched ingredient, and `unmatched_ingredients`. -/
structure MatchDataView where
  match_percentage : ℚ
  matched_count : Nat
  total_ingredients : Nat
  matched_ingredients : List MatchedIngredientView
  unmatched_ingredients : List String
  deriving DecidableEq, Repr

/-- Projection of a row onto the listed match fields. -/
def matchDataView (r : RecipeMatch) : MatchDataView :=
  { match_percentage := r.match_percentage,
    matched_count := r.matched_count,
    total_ingredients := r.total_ingredients,
    matched_ingredients := r.matched_ingredients.map ingredientView,
    unmatched_ingredients := r.unmatched_ingredients }

/-- JavaScript `toLowerCase` on the app's data (ASCII plus the Swedish
letters). -/
def jsToLower (s : String) : String := String.mk (s.toList.map swedishLower)

/-- JavaScript `String.prototype.trim`. -/
def jsTrim (s : String) : String :=
  String.mk
    (((s.toList.dropWhile Char.isWhitespace).reverse.dropWhile
        Char.isWhitespace).reverse)

/-- JavaScript `split(',')`: every comma is a separator and empty pieces
are kept. -/
def splitCommaAux : List Char → List Char → List String
  | cur, [] => [String.mk cur.reverse]
  | cur, c :: rest =>
    if c = ',' then String.mk cur.reverse :: splitCommaAux [] rest
    else splitCommaAux (c :: cur) rest

/-- `category.split(',')`. -/
def splitOnComma (s : String) : List String := splitCommaAux [] s.toList

/-- `RecipeApp.getShortStoreName` (the recipes-page variant with its
falsy guard and `startsWith` tests). -/
def appShortStoreName (store : String) : String :=
  if store = "" then ""
  else if store.startsWith "ICA " then "ICA"
  else if store.startsWith "Stora Coop" then "Coop"
  else if store.startsWith "Coop " then "Coop"
  else store

/-- The `replace(/^sats\s+/i, '')` strip applied to ICA ingredient-kit
names in `renderIngredientRows`. -/
def stripSatsKit (s : String) : String :=
  let cs := s.toList
  if (cs.take 4).map Char.toLower = ['s', 'a', 't', 's'] then
    match cs.drop 4 with
    | [] => s
    | c :: rest =>
      if c.isWhitespace then
        String.mk (List.dropWhile Char.isWhitespace (c :: rest))
      else s
  else s

/-- One row of `RecipeApp.renderIngredientRows`: the HTML produced for a
single matched ingredient (template whitespace compressed). -/
def renderIngredientRow (ing : MatchedIngredient) : String :=
  let storeClass := getStoreClass ing.deal_store
  let storeName := appShortStoreName ing.deal_store
  let priceDisplay := ing.deal_price
  let originalPrice := ing.ord_pris
  let ingredientName := stripSatsKit ing.ingredient
  "<div class=\"ingredient-row\"><span class=\"ingredient-name\">"
    ++ escapeHtml ingredientName
    ++ "</span><div class=\"ingredient-deal\"><span class=\"store-badge "
    ++ storeClass ++ "\">" ++ escapeHtml storeName
    ++ "</span><span class=\"deal-price\">" ++ escapeHtml priceDisplay
    ++ "</span>"
    ++ (if originalPrice ≠ "" then
          "<span class=\"price-original\">" ++ escapeHtml originalPrice
            ++ "</span>"
        else "")
    ++ "</div></div>"

/-- `RecipeApp.renderIngredientRows`: the placeholder row when there are
no matches, otherwise the concatenation of the rows. -/
def renderIngredientRows (matchedIngredients : List MatchedIngredient) :
    String :=
  if matchedIngredients.isEmpty then
    "<div class=\"ingredient-row\"><span class=\"ingredient-name\">Inga träffar</span></div>"
  else String.join (matchedIngredients.map renderIngredientRow)

/-- Value of a digit run. -/
def digitsToNat (ds : List Char) : Nat :=
  ds.foldl (fun n c => n * 10 + (c.toNat - '0'.toNat)) 0

/-- First position of the literal "PT" (the anchor of the
`/PT(?:(\d+)H)?(?:(\d+)M)?/` pattern), returning the remainder. -/
def findPT : List Char → Option (List Char)
  | [] => none
  | 'P' :: 'T' :: rest => some rest
  | _ :: rest => findPT rest

/-- The two optional capture groups `(\d+)H` and `(\d+)M` after "PT",
with the regex backtracking behaviour of the optional groups. -/
def parsePTGroups (cs : List Char) : Nat × Nat :=
  let ds := cs.takeWhile Char.isDigit
  let rest := cs.drop ds.length
  match rest with
  | 'H' :: afterH =>
    if ds.isEmpty then (0, 0)
    else
      let ds2 := afterH.takeWhile Char.isDigit
      let rest2 := afterH.drop ds2.length
      match rest2 with
      | 'M' :: _ => if ds2.isEmpty then (digitsToNat ds, 0)
                    else (digitsToNat ds, digitsToNat ds2)
      | _ => (digitsToNat ds, 0)
  | 'M' :: _ => if ds.isEmpty then (0, 0) else (0, digitsToNat ds)
  | _ => (0, 0)

/-- `RecipeApp.formatTime`: `null` for a falsy or non-matching time,
otherwise "`H`h `M`m" when hours are positive and "`M` min" otherwise. -/
def formatTime (isoTime : Option String) : Option String :=
  match isoTime with
  | none => none
  | some t =>
    if t = "" then none
    else
      match findPT t.toList with
      | none => none
      | some rest =>
        let hm := parsePTGroups rest
        if 0 < hm.1 then some (toString hm.1 ++ "h " ++ toString hm.2 ++ "m")
        else some (toString hm.2 ++ " min")

/-- `RecipeApp.getImageUrl`: a falsy image gives `null`, a non-empty
string is returned as is, a non-empty array contributes its first entry. -/
def getImageUrl : ImageField → Option String
  | .missing => none
  | .str s => if s = "" then none else some s
  | .arr l =>
    match l with
    | [] => none
    | x :: _ => some x

/-- The global case-insensitive strip `replace(/ ?(calories|kcal)/gi, '')`
applied to the calories text in `renderNutrition`, as a left-to-right
scanner: at each position an optional space followed by "calories" (first
alternative) or "kcal" is consumed, otherwise one character is kept. -/
def stripCalTokens : List Char → List Char
  | [] => []
  | c :: rest =>
    if c = ' ' then
      if (rest.take 8).map Char.toLower = "calories".toList then
        stripCalTokens (rest.drop 8)
      else if (rest.take 4).map Char.toLower = "kcal".toList then
        stripCalTokens (rest.drop 4)
      else c :: stripCalTokens rest
    else
      if ((c :: rest).take 8).map Char.toLower = "calories".toList then
        stripCalTokens ((c :: rest).drop 8)
      else if ((c :: rest).take 4).map Char.toLower = "kcal".toList then
        stripCalTokens ((c :: rest).drop 4)
      else c :: stripCalTokens rest
termination_by cs => cs.length
decreasing_by
  all_goals simp [List.length_drop]
  all_goals omega

/-- The first-occurrence strip `replace(' g', '')` applied to the
protein/fat/carbs texts in `renderNutrition`. -/
def replaceFirstSpaceG : List Char → List Char
  | [] => []
  | ' ' :: 'g' :: rest => rest
  | c :: rest => c :: replaceFirstSpaceG rest

/-- One entry of the `renderNutrition` grid (template whitespace
compressed). -/
def nutritionItemHtml (it : String × String × String) : String :=
  "<div class=\"nutrition-item\"><span class=\"nutrition-label\">" ++ it.1
    ++ "</span><span class=\"nutrition-value\">" ++ it.2.1 ++ " " ++ it.2.2
    ++ "</span></div>"

/-- `RecipeApp.renderNutrition`: collect the present (truthy) nutrition
fields with their display transforms, return the empty string when none
is present, otherwise the nutrition section markup. -/
def renderNutrition (nutrition : Option NutritionInfo) : String :=
  match nutrition with
  | none => ""
  | some nut =>
    let items : List (String × String × String) :=
      (match nut.calories with
       | some s =>
         if s ≠ "" then [("Kalorier", String.mk (stripCalTokens s.toList), "kcal")]
         else []
       | none => []) ++
      (match nut.protein with
       | some s =>
         if s ≠ "" then [("Protein", String.mk (replaceFirstSpaceG s.toList), "g")]
         else []
       | none => []) ++
      (match nut.fat with
       | some s =>
         if s ≠ "" then [("Fett", String.mk (replaceFirstSpaceG s.toList), "g")]
         else []
       | none => []) ++
      (match nut.carbs with
       | some s =>
         if s ≠ "" then
           [("Kolhydrater", String.mk (replaceFirstSpaceG s.toList), "g")]
         else []
       | none => [])
    if items.isEmpty then ""
    else
      "<div class=\"nutrition-section\"><div class=\"nutrition-title\">Näringsvärde per portion</div><div class=\"nutrition-grid\">"
        ++ String.join (items.map nutritionItemHtml) ++ "</div></div>"

/-- The exact rational value of the JavaScript double `Math.PI`. -/
def mathPI : ℚ := 884279719003555 / 281474976710656

/-- JavaScript `Math.round` (half-up). -/
def roundJS (q : ℚ) : ℤ := ⌊q + 1/2⌋

/-- JavaScript `Number(x).toFixed(1)` on the app's non-negative ratings. -/
def toFixed1 (q : ℚ) : String :=
  let n : ℤ := roundJS (q * 10)
  toString (n / 10) ++ "." ++ toString (n % 10)

/-- `RecipeApp.createRecipeCard`: the recipe card markup (template
whitespace compressed; interpolations and conditionals as in the
source). -/
def createRecipeCard (r : RecipeMatch) : String :=
  let time := formatTime r.meta.time
  let percentage := r.match_percentage
  let circumference : ℚ := 2 * mathPI * 22
  let offset := circumference - (percentage / 100) * circumference
  let imageUrl := getImageUrl r.meta.image
  let imageHtml :=
    match imageUrl with
    | some u =>
      "<img class=\"card-image\" src=\"" ++ escapeHtml u ++ "\" alt=\""
        ++ escapeHtml r.meta.name ++ "\" loading=\"lazy\">"
    | none => ""
  let matchedCount := r.matched_count
  let ingredientRowsHtml := renderIngredientRows r.matched_ingredients
  let categoryHtml :=
    if escapeHtml r.meta.category = "" then "Recept"
    else escapeHtml r.meta.category
  "<article class=\"recipe-card\">" ++ imageHtml
    ++ "<div class=\"card-header\"><span class=\"card-category\">"
    ++ categoryHtml ++ "</span><h2 class=\"card-title\">"
    ++ escapeHtml r.meta.name ++ "</h2><div class=\"card-meta\">"
    ++ (match time with
        | some t =>
          "<span class=\"meta-item\"><span class=\"meta-icon\">⏱</span> "
            ++ t ++ "</span>"
        | none => "")
    ++ (match r.meta.servings with
        | some n =>
          if n ≠ 0 then
            "<span class=\"meta-item\"><span class=\"meta-icon\">👤</span> "
              ++ toString n ++ "</span>"
          else ""
        | none => "")
    ++ "</div></div><div class=\"match-score\"><div class=\"score-ring\"><svg width=\"56\" height=\"56\" viewBox=\"0 0 56 56\"><circle class=\"score-ring-bg\" cx=\"28\" cy=\"28\" r=\"22\"/><circle class=\"score-ring-progress\" cx=\"28\" cy=\"28\" r=\"22\" style=\"stroke-dashoffset: "
    ++ toString offset ++ "\"/></svg><span class=\"score-text\">"
    ++ toString (roundJS percentage)
    ++ "%</span></div><div class=\"score-details\"><div class=\"score-label\">Ingredienser på rea</div><div class=\"score-fraction\">"
    ++ toString r.matched_count ++ " av " ++ toString r.total_ingredients
    ++ "</div></div></div><div class=\"ingredients-section\"><button class=\"ingredients-accordion\" aria-expanded=\"false\"><span>"
    ++ toString matchedCount ++ " ingrediens"
    ++ (if matchedCount ≠ 1 then "er" else "")
    ++ " på rea</span><svg class=\"accordion-icon\" viewBox=\"0 0 24 24\" fill=\"none\" stroke=\"currentColor\" stroke-width=\"2\"><path d=\"M6 9l6 6 6-6\"/></svg></button><div class=\"ingredients-accordion-content\">"
    ++ ingredientRowsHtml ++ "</div></div>"
    ++ renderNutrition r.meta.nutrition
    ++ "<div class=\"card-footer\"><a href=\"" ++ escapeHtml r.meta.url
    ++ "\" target=\"_blank\" rel=\"noopener\" class=\"recipe-link\">Se recept<svg viewBox=\"0 0 24 24\" fill=\"none\" stroke=\"currentColor\" stroke-width=\"2\"><path d=\"M5 12h14M12 5l7 7-7 7\"/></svg></a>"
    ++ (match r.meta.rating with
        | some rat =>
          if rat ≠ 0 then
            "<div class=\"rating\"><span class=\"rating-star\">★</span>"
              ++ toFixed1 rat
              ++ (match r.meta.reviews with
                  | some rev =>
                    if rev ≠ 0 then "<span>(" ++ toString rev ++ ")</span>"
                    else ""
                  | none => "")
              ++ "</div>"
          else ""
        | none => "")
    ++ "</article>"

/-- One nutrition filter definition (`this.nutritionFilters` entries). -/
structure NutritionFilter where
  id : String
  label : String
  field : String
  min : Option ℚ
  max : Option ℚ
  deriving Repr

/-- The four nutrition filter definitions of the recipes page. -/
def nutritionFilters : List NutritionFilter :=
  [{ id := "high-protein", label := "Proteinrikt", field := "protein",
     min := some 25, max := none },
   { id := "extra-protein", label := "Extra protein", field := "protein",
     min := some 35, max := none },
   { id := "low-carb", label := "Låg kolhydrat", field := "carbs",
     min := none, max := some 20 },
   { id := "low-cal", label := "Kalorisnålt", field := "calories",
     min := none, max := some 400 }]

/-- Dynamic field access `recipe.nutrition[filter.field]`. -/
def nutritionField (nut : NutritionInfo) : String → Option String
  | "calories" => nut.calories
  | "protein" => nut.protein
  | "fat" => nut.fat
  | "carbs" => nut.carbs
  | _ => none

/-- First run of `/[\d.]+/` in a string, if any. -/
def firstNumToken : List Char → Option (List Char)
  | [] => none
  | c :: rest =>
    if c.isDigit || c = '.' then
      some ((c :: rest).takeWhile (fun x => x.isDigit || x = '.'))
    else firstNumToken rest

/-- JavaScript `parseFloat` on a `[\d.]+` token (`none` models `NaN`). -/
def parseFloatTok (t : List Char) : Option ℚ :=
  let intDigits := t.takeWhile Char.isDigit
  let rest := t.drop intDigits.length
  match rest with
  | '.' :: rest2 =>
    let fracDigits := rest2.takeWhile Char.isDigit
    if intDigits.isEmpty ∧ fracDigits.isEmpty then none
    else
      some ((digitsToNat intDigits : ℚ)
        + (digitsToNat fracDigits : ℚ) / ((10 : ℚ) ^ fracDigits.length))
  | _ => if intDigits.isEmpty then none else some (digitsToNat intDigits)

/-- `RecipeApp.parseNutritionValue`: the outer `none` models the `null`
result (falsy input or no `[\d.]+` match), `some none` models a `NaN`
from `parseFloat`. -/
def parseNutritionValue (str : Option String) : Option (Option ℚ) :=
  match str with
  | none => none
  | some s =>
    if s = "" then none
    else
      match firstNumToken s.toList with
      | none => none
      | some t => some (parseFloatTok t)

/-- `RecipeApp.checkNutritionFilter`: a missing nutrition record or a
`null` value fails the filter; a `NaN` value passes both range checks
(both comparisons are false); a number must be at least `min` and at most
`max` where present. -/
def checkNutritionFilter (nutrition : Option NutritionInfo)
    (f : NutritionFilter) : Bool :=
  match nutrition with
  | none => false
  | some nut =>
    match parseNutritionValue (nutritionField nut f.field) with
    | none => false
    | some none => true
    | some (some v) =>
      (f.min.all fun m => decide (m ≤ v)) && (f.max.all fun m => decide (v ≤ m))

/-- The predicate of `RecipeApp.filterRecipes`: search over name,
category and both ingredient buckets, the store filter over the matched
deals' stores, the comma-separated category filter, and the conjunction
of the active nutrition filters. -/
def filterRecipesPred (searchQuery currentStore currentCategory : String)
    (activeNutritionFilters : List String) (r : RecipeMatch) : Bool :=
  let matchesSearch := searchQuery == "" ||
    containsSub searchQuery.toList (jsToLower r.meta.name).toList ||
    (r.meta.category != "" &&
      containsSub searchQuery.toList (jsToLower r.meta.category).toList) ||
    r.matched_ingredients.any
      (fun ing => containsSub searchQuery.toList (jsToLower ing.ingredient).toList) ||
    r.unmatched_ingredients.any
      (fun ing => containsSub searchQuery.toList (jsToLower ing).toList)
  let matchesStore := currentStore == "all" ||
    r.matched_ingredients.any (fun ing => ing.deal_store == currentStore)
  let matchesCategory := currentCategory == "all" ||
    (r.meta.category != "" &&
      (splitOnComma r.meta.category).any
        (fun c => jsTrim c == currentCategory))
  let matchesNutrition := activeNutritionFilters.all (fun id =>
    match nutritionFilters.find? (fun f => f.id == id) with
    | some f => checkNutritionFilter r.meta.nutrition f
    | none => true)
  matchesSearch && matchesStore && matchesCategory && matchesNutrition

/-- The `'match'` branch of the `RecipeApp.sortRecipes` comparator:
`b.match_percentage - a.match_percentage`. -/
def compareByMatch (a b : RecipeMatch) : ℚ :=
  b.match_percentage - a.match_percentage

/-- Display metadata used by the C7 witness. -/
def demoMeta : RecipeMeta :=
  { name := "Kycklinggryta", url := "https://example.org/recept",
    category := "Middag", image := ImageField.missing, servings := some 4,
    time := some "PT1H30M", rating := none, reviews := none,
    nutrition := none }

/-- A matched entry carrying a score of 0.9. -/
def demoIngA : MatchedIngredient :=
  { ingredient := "kyckling", deal_store := "ICA Supermarket",
    deal_price := "99:-", deal_unit := "/kg", ord_pris := "129:-",
    score := ⟨9, 10, by norm_num, by norm_num⟩ }

/-- A row whose single matched ingredient scored 0.9. -/
def demoRecipeA : RecipeMatch :=
  { meta := demoMeta, total_ingredients := 2, matched_count := 1,
    match_percentage := 50, matched_ingredients := [demoIngA],
    unmatched_ingredients := ["1 dl grädde"] }

/-- The same row except that the (unlisted) score reads 0.7. -/
def demoRecipeB : RecipeMatch :=
  { demoRecipeA with
    matched_ingredients :=
      [{ demoIngA with score := ⟨7, 10, by norm_num, by norm_num⟩ }] }

/-- Configuration whose threshold is exactly the 0.9 substring tier. -/
def cfgBoundary : MatchConfig :=
  { synonyms := [], ignoreWords := [], falseMatches := [],
    acceptanceThreshold := ⟨9, 10, by norm_num, by norm_num⟩ }

/-- Configuration whose threshold 0.91 sits just above the 0.9 tier. -/
def cfgStrict : MatchConfig :=
  { synonyms := [], ignoreWords := [], falseMatches := [],
    acceptanceThreshold := ⟨91, 100, by norm_num, by norm_num⟩ }

/- ===================================================================
   Theorems
   =================================================================== -/

lemma addItems_foldl_spec (existingIds : List String) (now : Nat)
    (items : List BatchItem) (acc : List StoredItem) (a d : Nat) :
    items.foldl
      (fun (acc : List StoredItem × Nat × Nat) (item : BatchItem) =>
        if item.id ∈ existingIds then (acc.1, acc.2.1, acc.2.2 + 1)
        else (acc.1 ++ [mkStoredItem item now], acc.2.1 + 1, acc.2.2))
      (acc, a, d)
      = (acc ++ addItemsNew existingIds items now,
         a + (items.filter (fun item => item.id ∉ existingIds)).length,
         d + (items.filter (fun item => item.id ∈ existingIds)).length) := by
  induction items generalizing acc a d with
  | nil => simp [addItemsNew]
  | cons x xs ih =>
    by_cases hx : x.id ∈ existingIds
    · simp [List.foldl_cons, hx, ih, addItemsNew, List.filter_cons,
        Nat.add_comm, Nat.add_assoc, Nat.add_left_comm]
    · simp [List.foldl_cons, hx, ih, addItemsNew, List.filter_cons,
        Nat.add_comm, Nat.add_assoc, Nat.add_left_comm]

lemma filter_length_partition {α : Type} (p : α → Bool) (l : List α) :
    (l.filter p).length + (l.filter (fun x => ¬ p x)).length = l.length := by
  induction l with
  | nil => simp
  | cons x xs ih =>
    by_cases hx : p x <;> simp [List.filter_cons, hx, ← ih] <;> omega

lemma mem_replaceAllChar {x c : Char} {rep cs : List Char}
    (h : x ∈ replaceAllChar c rep cs) : x ∈ rep ∨ (x ∈ cs ∧ x ≠ c) := by
  induction cs with
  | nil => simp [replaceAllChar] at h
  | cons y ys ih =>
    simp only [replaceAllChar, List.mem_append] at h
    rcases h with h | h
    · by_cases hy : y = c
      · simp [hy] at h; exact Or.inl h
      · simp [hy] at h; subst h; exact Or.inr ⟨List.mem_cons_self _ _, hy⟩
    · rcases ih h with h' | ⟨h1, h2⟩
      · exact Or.inl h'
      · exact Or.inr ⟨List.mem_cons_of_mem _ h1, h2⟩

lemma escapeHtmlChars_no_specials (cs : List Char) (x : Char)
    (hx : x ∈ escapeHtmlChars cs) :
    x ≠ '<' ∧ x ≠ '>' ∧ x ≠ '"' ∧ x ≠ apos := by
  unfold escapeHtmlChars at hx
  rcases mem_replaceAllChar hx with h | ⟨hx1, ne1⟩
  · fin_cases h <;> exact (by decide)
  rcases mem_replaceAllChar hx1 with h | ⟨hx2, ne2⟩
  · fin_cases h <;> exact (by decide)
  rcases mem_replaceAllChar hx2 with h | ⟨hx3, ne3⟩
  · fin_cases h <;> exact (by decide)
  rcases mem_replaceAllChar hx3 with h | ⟨hx4, ne4⟩
  · fin_cases h <;> exact (by decide)
  exact ⟨ne4, ne3, ne2, ne1⟩

/-- C8: `Utils.escapeHtml` output never contains `<`, `>`, `"` or `'`,
and every falsy input (null, undefined, the empty string) yields `""`. -/
theorem escapeHtml_output_has_no_html_specials :
    (∀ o : Option String, ∀ c ∈ (escapeHtmlJS o).toList,
        c ≠ '<' ∧ c ≠ '>' ∧ c ≠ '"' ∧ c ≠ apos) ∧
    escapeHtmlJS none = "" ∧ escapeHtmlJS (some "") = "" := by
  refine ⟨?_, rfl, rfl⟩
  intro o c hc
  match o with
  | none => simp [escapeHtmlJS] at hc
  | some s =>
    simp only [escapeHtmlJS, escapeHtml] at hc
    by_cases hs : s = ""
    · simp [hs] at hc
    · rw [if_neg hs] at hc
      exact escapeHtmlChars_no_specials _ _ hc

/-- Witness for C8 at a concrete input. -/
theorem escapeHtml_no_specials_witness :
    ('&' ∈ (escapeHtmlJS (some "<script>")).toList) ∧
      ('&' ≠ '<' ∧ '&' ≠ '>' ∧ '&' ≠ '"' ∧ '&' ≠ apos) :=
  ⟨by decide,
   escapeHtml_output_has_no_html_specials.1 (some "<script>") '&' (by decide)⟩

/-- C10: toggling the same index twice restores the selection, and an
out-of-bounds index leaves the selection unchanged. -/
theorem toggleSelection_involution_and_out_of_bounds :
    ∀ (filteredDeals : List Deal) (selectedIds : Finset String) (idx : ℤ),
      toggleSelection filteredDeals
          (toggleSelection filteredDeals selectedIds idx) idx = selectedIds ∧
      ((idx < 0 ∨ (filteredDeals.length : ℤ) ≤ idx) →
        toggleSelection filteredDeals selectedIds idx = selectedIds) := by
  intro l S idx
  by_cases h0 : 0 ≤ idx
  · cases hl : l[idx.toNat]? with
    | none =>
      constructor
      · simp [toggleSelection, h0, hl]
      · intro _; simp [toggleSelection, h0, hl]
    | some deal =>
      have hlt : idx.toNat < l.length := by
        rcases List.getElem?_eq_some_iff.mp hl with ⟨h, _⟩
        exact h
      constructor
      · by_cases hm : getDealId deal ∈ S
        · simp only [toggleSelection, if_pos h0, hl, if_pos hm]
          have : getDealId deal ∉ S.erase (getDealId deal) :=
            Finset.not_mem_erase _ _
          simp only [if_neg this]
          exact Finset.insert_erase hm
        · simp only [toggleSelection, if_pos h0, hl, if_neg hm]
          have : getDealId deal ∈ insert (getDealId deal) S :=
            Finset.mem_insert_self _ _
          simp only [if_pos this]
          exact Finset.erase_insert hm
      · intro hbad
        exfalso
        rcases hbad with hneg | hge
        · omega
        · omega
  · constructor
    · simp [toggleSelection, h0]
    · intro _; simp [toggleSelection, h0]

/-- Witness for C10: an out-of-bounds toggle on the empty catalog. -/
theorem toggleSelection_witness :
    toggleSelection [] ∅ 0 = ∅ :=
  (toggleSelection_involution_and_out_of_bounds [] ∅ 0).2 (Or.inr (by simp))

/-- C9: `ListsStorage.addItems` counts partition the batch, pre-existing
ids are never added again, and the items already stored are preserved
unchanged as a prefix of the result. -/
theorem addItems_counts_and_preservation :
    ∀ (list : ShoppingList) (items : List BatchItem) (now : Nat),
      (addItems list items now).2.1 + (addItems list items now).2.2
          = items.length ∧
      (addItems list items now).1.items
          = list.items ++ addItemsNew (list.items.map (·.id)) items now ∧
      ∀ x ∈ addItemsNew (list.items.map (·.id)) items now,
        x.id ∉ list.items.map (·.id) := by
  intro list items now
  have hfold := addItems_foldl_spec (list.items.map (·.id)) now items
    list.items 0 0
  refine ⟨?_, ?_, ?_⟩
  · show (items.foldl _ (list.items, 0, 0)).2.1
        + (items.foldl _ (list.items, 0, 0)).2.2 = items.length
    rw [hfold]
    have hpart := filter_length_partition
      (fun item => decide (item.id ∈ list.items.map (·.id))) items
    simpa [Nat.add_comm] using hpart
  · show (items.foldl _ (list.items, 0, 0)).1 = _
    rw [hfold]
  · intro x hx
    simp only [addItemsNew, List.mem_map, List.mem_filter] at hx
    rcases hx with ⟨item, ⟨_, hnot⟩, rfl⟩
    simpa [mkStoredItem] using of_decide_eq_true hnot

/-- Witness for C9 at a concrete list and batch. -/
theorem addItems_witness :
    (addItems demoList demoBatch 7).2.1 + (addItems demoList demoBatch 7).2.2 = 2 ∧
      (mkStoredItem { id := "b", payload := demoDeal } 7).id
        ∉ demoList.items.map (·.id) :=
  ⟨(addItems_counts_and_preservation demoList demoBatch 7).1,
   (addItems_counts_and_preservation demoList demoBatch 7).2.2 _ (by decide)⟩

/-- The integer form agrees with the rational ratio test whenever the two
strings are not both empty. -/
lemma fuzzyMatch_iff_ratio (a b : List Char) (h : a.length + b.length ≠ 0) :
    fuzzyMatch a b = true ↔ (4 : ℚ)/5 ≤ similarityRatio a b := by
  unfold fuzzyMatch similarityRatio
  rw [if_neg h]
  have hpos : (0 : ℚ) < (a.length + b.length : ℚ) := by
    have : 0 < a.length + b.length := Nat.pos_of_ne_zero h
    exact_mod_cast this
  rw [div_le_div_iff₀ (by norm_num) hpos, decide_eq_true_eq]
  constructor
  · intro hle
    have : (4 * (a.length + b.length) : ℚ) ≤ (5 * (2 * lcsLen a b) : ℚ) := by
      exact_mod_cast hle
    push_cast at this ⊢
    linarith
  · intro hle
    have : (4 * (a.length + b.length) : ℚ) ≤ (5 * (2 * lcsLen a b) : ℚ) := by
      push_cast at hle
      linarith
    exact_mod_cast this

lemma tierSubstring_eq : tierSubstring = 9/10 := by
  rw [← Rat.num_div_den tierSubstring]; norm_num [tierSubstring]

lemma tierSynonym_eq : tierSynonym = 17/20 := by
  rw [← Rat.num_div_den tierSynonym]; norm_num [tierSynonym]

lemma tierOverlap_eq : tierOverlap = 3/4 := by
  rw [← Rat.num_div_den tierOverlap]; norm_num [tierOverlap]

lemma tierFuzzy_eq : tierFuzzy = 7/10 := by
  rw [← Rat.num_div_den tierFuzzy]; norm_num [tierFuzzy]

lemma matchRecipe_foldl_spec (cfg : MatchConfig) (deals : List Deal)
    (ings : List String) (m : List MatchedIngredient) (u : List String) :
    ings.foldl
      (fun (acc : List MatchedIngredient × List String) (ing : String) =>
        match find_matching_deals cfg ing deals with
        | some (d, s) =>
          (acc.1 ++ [{ ingredient := ing, deal_store := d.store,
                       deal_price := d.price, deal_unit := d.unit,
                       ord_pris := d.ord_pris, score := s }], acc.2)
        | none => (acc.1, acc.2 ++ [ing]))
      (m, u)
      = (m ++ ings.filterMap (matchedEntry cfg deals),
         u ++ ings.filter
           (fun ing => (find_matching_deals cfg ing deals).isNone)) := by
  induction ings generalizing m u with
  | nil => simp
  | cons x xs ih =>
    cases hx : find_matching_deals cfg x deals with
    | none =>
      simp only [List.foldl_cons, hx, ih, List.filterMap_cons, List.filter_cons,
        matchedEntry, hx, Option.isNone_none]
      simp
    | some p =>
      obtain ⟨d, s⟩ := p
      simp only [List.foldl_cons, hx, ih, List.filterMap_cons, List.filter_cons,
        matchedEntry, hx, Option.isNone_some]
      simp

lemma matchRecipe_matched_eq (cfg : MatchConfig) (deals : List Deal)
    (ings : List String) :
    (matchRecipe cfg deals ings).matched_ingredients
      = ings.filterMap (matchedEntry cfg deals) := by
  show (ings.foldl _ ([], [])).1 = _
  rw [matchRecipe_foldl_spec]
  simp

lemma matchRecipe_unmatched_eq (cfg : MatchConfig) (deals : List Deal)
    (ings : List String) :
    (matchRecipe cfg deals ings).unmatched_ingredients
      = ings.filter (fun ing => (find_matching_deals cfg ing deals).isNone) := by
  show (ings.foldl _ ([], [])).2 = _
  rw [matchRecipe_foldl_spec]
  simp

lemma bestCandidate_eq_none_iff (cfg : MatchConfig) (ing : String)
    (deals : List Deal) : bestCandidate cfg ing deals = none ↔ deals = [] := by
  cases deals with
  | nil => simp [bestCandidate]
  | cons d rest =>
    simp only [bestCandidate]
    cases bestCandidate cfg ing rest with
    | none => simp
    | some p => obtain ⟨d', s'⟩ := p; by_cases h : matchScore cfg ing d.name < s' <;> simp [h]

lemma bestCandidate_spec (cfg : MatchConfig) (ing : String) :
    ∀ (deals : List Deal) (d : Deal) (s : ℚ),
      bestCandidate cfg ing deals = some (d, s) →
      d ∈ deals ∧ s = matchScore cfg ing d.name ∧
        ∀ d' ∈ deals, matchScore cfg ing d'.name ≤ s := by
  intro deals
  induction deals with
  | nil => intro d s h; simp [bestCandidate] at h
  | cons x rest ih =>
    intro d s h
    simp only [bestCandidate] at h
    cases hr : bestCandidate cfg ing rest with
    | none =>
      rw [hr] at h
      obtain ⟨rfl, rfl⟩ : x = d ∧ matchScore cfg ing x.name = s := by
        simpa using h
      have hrest : rest = [] := (bestCandidate_eq_none_iff cfg ing rest).mp hr
      subst hrest
      exact ⟨List.mem_singleton_self _, rfl, by
        intro d' hd'; rw [List.mem_singleton] at hd'; subst hd'; exact le_refl _⟩
    | some p =>
      obtain ⟨d0, s0⟩ := p
      rw [hr] at h
      dsimp only at h
      obtain ⟨hd0, hs0, hmax⟩ := ih d0 s0 hr
      by_cases hlt : matchScore cfg ing x.name < s0
      · rw [if_pos hlt] at h
        obtain ⟨rfl, rfl⟩ : d0 = d ∧ s0 = s := by simpa using h
        refine ⟨List.mem_cons_of_mem _ hd0, hs0, ?_⟩
        intro d' hd'
        rcases List.mem_cons.mp hd' with rfl | hd'
        · exact le_of_lt hlt
        · exact hmax d' hd'
      · rw [if_neg hlt] at h
        obtain ⟨rfl, rfl⟩ : x = d ∧ matchScore cfg ing x.name = s := by simpa using h
        refine ⟨List.mem_cons_self _ _, rfl, ?_⟩
        intro d' hd'
        rcases List.mem_cons.mp hd' with rfl | hd'
        · exact le_refl _
        · exact le_trans (hmax d' hd') (not_lt.mp hlt)

/-- C4: the best-deal selector accepts the kept maximum-scoring candidate
exactly when its score is at or above the acceptance threshold: a
candidate at the threshold is accepted, any score below it is rejected,
and an accepted pair carries the maximum score over the catalog. -/
theorem find_matching_deals_threshold (cfg : MatchConfig) (ing : String)
    (deals : List Deal) :
    ((find_matching_deals cfg ing deals).isSome ↔
      ∃ d ∈ deals, cfg.acceptanceThreshold ≤ matchScore cfg ing d.name) ∧
    ∀ d s, find_matching_deals cfg ing deals = some (d, s) →
      cfg.acceptanceThreshold ≤ s ∧ d ∈ deals ∧
        s = matchScore cfg ing d.name ∧
        ∀ d' ∈ deals, matchScore cfg ing d'.name ≤ s := by
  constructor
  · constructor
    · intro hsome
      unfold find_matching_deals at hsome
      cases hb : bestCandidate cfg ing deals with
      | none => rw [hb] at hsome; simp at hsome
      | some p =>
        obtain ⟨d, s⟩ := p
        rw [hb] at hsome
        dsimp only at hsome
        by_cases ht : cfg.acceptanceThreshold ≤ s
        · obtain ⟨hmem, hs, _⟩ := bestCandidate_spec cfg ing deals d s hb
          exact ⟨d, hmem, hs ▸ ht⟩
        · rw [if_neg ht] at hsome; simp at hsome
    · rintro ⟨d, hmem, hge⟩
      unfold find_matching_deals
      cases hb : bestCandidate cfg ing deals with
      | none =>
        rw [bestCandidate_eq_none_iff] at hb
        subst hb
        simp at hmem
      | some p =>
        obtain ⟨d0, s0⟩ := p
        obtain ⟨_, _, hmax⟩ := bestCandidate_spec cfg ing deals d0 s0 hb
        have : cfg.acceptanceThreshold ≤ s0 := le_trans hge (hmax d hmem)
        simp [this]
  · intro d s h
    unfold find_matching_deals at h
    cases hb : bestCandidate cfg ing deals with
    | none => rw [hb] at h; simp at h
    | some p =>
      obtain ⟨d0, s0⟩ := p
      rw [hb] at h
      dsimp only at h
      by_cases ht : cfg.acceptanceThreshold ≤ s0
      · rw [if_pos ht] at h
        obtain ⟨rfl, rfl⟩ : d0 = d ∧ s0 = s := by simpa using h
        obtain ⟨hmem, hs, hmax⟩ := bestCandidate_spec cfg ing deals _ _ hb
        exact ⟨ht, hmem, hs, hmax⟩
      · rw [if_neg ht] at h; simp at h

/-- C1: whenever the pair of synonym-resolved base terms of the
normalized ingredient and deal name is listed in `FALSE_MATCHES`, the
scorer returns no match (score 0) regardless of every other signal: the
denylist check precedes every positive-score path of the scorer. -/
theorem falseMatch_forces_no_match (cfg : MatchConfig)
    (ingredient dealName : String)
    (h : isFalseMatch cfg (normalizeText ingredient) (normalizeText dealName)
      = true) :
    matchScore cfg ingredient dealName = 0 := by
  simp [matchScore, h]

/-- Witness for C1: ingredient "ris" against deal "Riskakor" is rejected
even though the substring rule alone would accept the pair. -/
theorem falseMatch_forces_no_match_witness :
    substringMatch (normalizeText "ris") (normalizeText "Riskakor") = true ∧
      matchScore cfgRis "ris" "Riskakor" = 0 :=
  ⟨by decide, falseMatch_forces_no_match cfgRis "ris" "Riskakor" (by decide)⟩

/-- C5: the scorer only ever returns one of the fixed tier constants
1.0, 0.9, 0.85, 0.75, 0.7 or 0 — never a value between tiers. -/
theorem matchScore_only_fixed_tiers (cfg : MatchConfig) (a b : String) :
    matchScore cfg a b = 1 ∨ matchScore cfg a b = 9/10 ∨
      matchScore cfg a b = 17/20 ∨ matchScore cfg a b = 3/4 ∨
      matchScore cfg a b = 7/10 ∨ matchScore cfg a b = 0 := by
  simp only [matchScore]
  split_ifs <;>
    norm_num [tierSubstring_eq, tierSynonym_eq, tierOverlap_eq, tierFuzzy_eq]

lemma matched_unmatched_length (cfg : MatchConfig) (deals : List Deal)
    (ings : List String) :
    (ings.filterMap (matchedEntry cfg deals)).length
        + (ings.filter
            (fun ing => (find_matching_deals cfg ing deals).isNone)).length
      = ings.length := by
  induction ings with
  | nil => simp
  | cons x xs ih =>
    cases hx : find_matching_deals cfg x deals with
    | none =>
      simp only [List.filterMap_cons, List.filter_cons, matchedEntry, hx,
        Option.isNone_none]
      simp only [if_true, List.length_cons]
      omega
    | some p =>
      obtain ⟨d, s⟩ := p
      simp only [List.filterMap_cons, List.filter_cons, matchedEntry, hx,
        Option.isNone_some]
      simp only [Bool.false_eq_true, if_false, List.length_cons]
      omega

lemma mem_matched_names_iff (cfg : MatchConfig) (deals : List Deal)
    (ings : List String) (ing : String) :
    ing ∈ (ings.filterMap (matchedEntry cfg deals)).map (·.ingredient)
      ↔ ing ∈ ings ∧ (find_matching_deals cfg ing deals).isSome := by
  induction ings with
  | nil => simp
  | cons x xs ih =>
    cases hx : find_matching_deals cfg x deals with
    | none =>
      simp only [List.filterMap_cons, matchedEntry, hx]
      rw [ih, List.mem_cons]
      constructor
      · rintro ⟨hmem, hsome⟩; exact ⟨Or.inr hmem, hsome⟩
      · rintro ⟨hx', hsome⟩
        rcases hx' with rfl | hmem
        · rw [hx] at hsome; simp at hsome
        · exact ⟨hmem, hsome⟩
    | some p =>
      obtain ⟨d, s⟩ := p
      simp only [List.filterMap_cons, matchedEntry, hx, List.map_cons,
        List.mem_cons]
      rw [ih]
      constructor
      · rintro (rfl | ⟨hmem, hsome⟩)
        · exact ⟨Or.inl rfl, by rw [hx]; rfl⟩
        · exact ⟨Or.inr hmem, hsome⟩
      · rintro ⟨hx', hsome⟩
        rcases hx' with rfl | hmem
        · exact Or.inl rfl
        · exact Or.inr ⟨hmem, hsome⟩

/-- C2: for every recipe, `matched_count` plus the number of unmatched
ingredients equals `total_ingredients`, and every ingredient of the
recipe lands in exactly one of the two buckets. -/
theorem matchRecipe_partition (cfg : MatchConfig) (deals : List Deal)
    (ings : List String) :
    (matchRecipe cfg deals ings).matched_count
          + (matchRecipe cfg deals ings).unmatched_ingredients.length
        = (matchRecipe cfg deals ings).total_ingredients ∧
      ∀ ing ∈ ings,
        (ing ∈ (matchRecipe cfg deals ings).matched_ingredients.map
            (·.ingredient)
          ↔ ing ∉ (matchRecipe cfg deals ings).unmatched_ingredients) := by
  have hm := matchRecipe_matched_eq cfg deals ings
  have hu := matchRecipe_unmatched_eq cfg deals ings
  constructor
  · have hcount : (matchRecipe cfg deals ings).matched_count
        = (matchRecipe cfg deals ings).matched_ingredients.length := rfl
    have htotal : (matchRecipe cfg deals ings).total_ingredients
        = ings.length := rfl
    rw [hcount, htotal, hm, hu]
    exact matched_unmatched_length cfg deals ings
  · intro ing hing
    rw [hm, hu, mem_matched_names_iff, List.mem_filter]
    cases hs : find_matching_deals cfg ing deals with
    | none => simp [hing, hs]
    | some p => simp [hing, hs]

/-- Witness for C2 at a concrete recipe. -/
theorem matchRecipe_partition_witness :
    "ost" ∈ (matchRecipe cfgPlain demoDeals ["ost"]).matched_ingredients.map
        (·.ingredient)
      ↔ "ost" ∉ (matchRecipe cfgPlain demoDeals ["ost"]).unmatched_ingredients :=
  (matchRecipe_partition cfgPlain demoDeals ["ost"]).2 "ost" (by simp)

/-- C3: the match percentage is `matched_count / total_ingredients * 100`,
is exactly 0 for a recipe with no ingredients, and always lies in
`[0, 100]`. -/
theorem matchRecipe_percentage (cfg : MatchConfig) (deals : List Deal)
    (ings : List String) :
    ((matchRecipe cfg deals ings).total_ingredients ≠ 0 →
        (matchRecipe cfg deals ings).match_percentage
          = ((matchRecipe cfg deals ings).matched_count : ℚ)
              / ((matchRecipe cfg deals ings).total_ingredients : ℚ) * 100) ∧
      ((matchRecipe cfg deals ings).total_ingredients = 0 →
        (matchRecipe cfg deals ings).match_percentage = 0) ∧
      0 ≤ (matchRecipe cfg deals ings).match_percentage ∧
      (matchRecipe cfg deals ings).match_percentage ≤ 100 := by
  have htotal : (matchRecipe cfg deals ings).total_ingredients
      = ings.length := rfl
  have hmc : (matchRecipe cfg deals ings).matched_count
      = (matchRecipe cfg deals ings).matched_ingredients.length := rfl
  have hle : (matchRecipe cfg deals ings).matched_count ≤ ings.length := by
    have := matched_unmatched_length cfg deals ings
    rw [hmc, matchRecipe_matched_eq]
    omega
  have hpct : (matchRecipe cfg deals ings).match_percentage
      = if ings.length = 0 then 0
        else ((matchRecipe cfg deals ings).matched_count : ℚ)
          / (ings.length : ℚ) * 100 := rfl
  by_cases h0 : ings.length = 0
  · refine ⟨fun h => absurd (htotal.trans h0) h, fun _ => ?_, ?_, ?_⟩
    · rw [hpct, if_pos h0]
    · rw [hpct, if_pos h0]
    · rw [hpct, if_pos h0]; norm_num
  · have hpos : (0 : ℚ) < (ings.length : ℚ) := by
      exact_mod_cast Nat.pos_of_ne_zero h0
    refine ⟨fun _ => ?_, fun h => absurd (htotal ▸ h) h0, ?_, ?_⟩
    · rw [hpct, if_neg h0, htotal]
    · rw [hpct, if_neg h0]
      positivity
    · rw [hpct, if_neg h0]
      have hc : ((matchRecipe cfg deals ings).matched_count : ℚ)
          ≤ (ings.length : ℚ) := by exact_mod_cast hle
      have h1 : ((matchRecipe cfg deals ings).matched_count : ℚ)
          / (ings.length : ℚ) ≤ 1 := (div_le_one hpos).mpr hc
      calc ((matchRecipe cfg deals ings).matched_count : ℚ)
            / (ings.length : ℚ) * 100 ≤ 1 * 100 := by
              exact mul_le_mul_of_nonneg_right h1 (by norm_num)
        _ = 100 := by norm_num

/-- Witness for C3: the zero-ingredient recipe has percentage exactly 0. -/
theorem matchRecipe_percentage_witness :
    (matchRecipe cfgPlain demoDeals []).match_percentage = 0 :=
  (matchRecipe_percentage cfgPlain demoDeals []).2.1 rfl

/-- C6 counterexample: a concrete recipe whose first ingredient matches
at the substring tier (0.9) and whose second matches exactly (1.0), so
`matched_ingredients` is not ordered by descending score. -/
theorem matched_not_sorted_by_score :
    ¬ ((matchRecipe cfgPlain demoDeals ["mjölkdryck", "ost"]).matched_ingredients.map
        (·.score)).Sorted (· ≥ ·) := by
  intro h
  have hscores : (matchRecipe cfgPlain demoDeals
      ["mjölkdryck", "ost"]).matched_ingredients.map (·.score)
        = [tierSubstring, 1] := rfl
  rw [hscores] at h
  have : tierSubstring ≥ 1 := by
    have := List.rel_of_sorted_cons h 1 (List.mem_singleton_self 1)
    exact this
  rw [tierSubstring_eq] at this
  norm_num at this

lemma map_ingredient_filterMap (cfg : MatchConfig) (deals : List Deal)
    (ings : List String) :
    (ings.filterMap (matchedEntry cfg deals)).map (·.ingredient)
      = ings.filter (fun ing => (find_matching_deals cfg ing deals).isSome) := by
  induction ings with
  | nil => simp
  | cons x xs ih =>
    cases hx : find_matching_deals cfg x deals with
    | none =>
      simp only [List.filterMap_cons, matchedEntry, hx, List.filter_cons,
        Option.isSome_none, Bool.false_eq_true, if_false]
      exact ih
    | some p =>
      obtain ⟨d, s⟩ := p
      simp only [List.filterMap_cons, matchedEntry, hx, List.filter_cons,
        Option.isSome_some, if_true, List.map_cons]
      rw [ih]

/-- C6 as amended: both buckets of a `MatchResult` preserve the recipe's
original ingredient order — the matched bucket lists, in original order,
exactly the ingredients the selector accepts, and the unmatched bucket
lists, in original order, exactly those it rejects (the stable partition
of §4.4, not a resort by score). -/
theorem matchRecipe_buckets_preserve_order (cfg : MatchConfig)
    (deals : List Deal) (ings : List String) :
    (matchRecipe cfg deals ings).matched_ingredients.map (·.ingredient)
        = ings.filter (fun ing => (find_matching_deals cfg ing deals).isSome) ∧
      (matchRecipe cfg deals ings).unmatched_ingredients
        = ings.filter (fun ing => (find_matching_deals cfg ing deals).isNone) := by
  refine ⟨?_, matchRecipe_unmatched_eq cfg deals ings⟩
  rw [matchRecipe_matched_eq]
  exact map_ingredient_filterMap cfg deals ings

lemma ingredientView_fields {x y : MatchedIngredient}
    (h : ingredientView x = ingredientView y) :
    x.ingredient = y.ingredient ∧ x.deal_store = y.deal_store ∧
      x.deal_price = y.deal_price ∧ x.deal_unit = y.deal_unit ∧
      x.ord_pris = y.ord_pris := by
  simpa [ingredientView, MatchedIngredientView.mk.injEq] using h

lemma renderIngredientRow_congr {x y : MatchedIngredient}
    (h : ingredientView x = ingredientView y) :
    renderIngredientRow x = renderIngredientRow y := by
  obtain ⟨h1, h2, h3, _, h5⟩ := ingredientView_fields h
  simp only [renderIngredientRow, h1, h2, h3, h5]

lemma map_renderIngredientRow_congr :
    ∀ l1 l2 : List MatchedIngredient,
      l1.map ingredientView = l2.map ingredientView →
      l1.map renderIngredientRow = l2.map renderIngredientRow := by
  intro l1
  induction l1 with
  | nil =>
    intro l2 h
    cases l2 with
    | nil => rfl
    | cons y ys => simp at h
  | cons x xs ih =>
    intro l2 h
    cases l2 with
    | nil => simp at h
    | cons y ys =>
      simp only [List.map_cons, List.cons.injEq] at h ⊢
      exact ⟨renderIngredientRow_congr h.1, ih ys h.2⟩

lemma renderIngredientRows_congr {l1 l2 : List MatchedIngredient}
    (h : l1.map ingredientView = l2.map ingredientView) :
    renderIngredientRows l1 = renderIngredientRows l2 := by
  have hlen : l1.length = l2.length := by
    have := congrArg List.length h
    simpa using this
  unfold renderIngredientRows
  cases l1 with
  | nil =>
    cases l2 with
    | nil => rfl
    | cons y ys => simp at hlen
  | cons x xs =>
    cases l2 with
    | nil => simp at hlen
    | cons y ys =>
      simp only [List.isEmpty_cons]
      rw [map_renderIngredientRow_congr _ _ h]

lemma any_search_congr (q : String) :
    ∀ l1 l2 : List MatchedIngredient,
      l1.map ingredientView = l2.map ingredientView →
      (l1.any fun ing =>
          containsSub q.toList (jsToLower ing.ingredient).toList)
        = (l2.any fun ing =>
          containsSub q.toList (jsToLower ing.ingredient).toList) := by
  intro l1
  induction l1 with
  | nil =>
    intro l2 h
    cases l2 with
    | nil => rfl
    | cons y ys => simp at h
  | cons x xs ih =>
    intro l2 h
    cases l2 with
    | nil => simp at h
    | cons y ys =>
      simp only [List.map_cons, List.cons.injEq] at h
      obtain ⟨h1, _, _, _, _⟩ := ingredientView_fields h.1
      simp only [List.any_cons, h1, ih ys h.2]

lemma any_store_congr (st : String) :
    ∀ l1 l2 : List MatchedIngredient,
      l1.map ingredientView = l2.map ingredientView →
      (l1.any fun ing => ing.deal_store == st)
        = (l2.any fun ing => ing.deal_store == st) := by
  intro l1
  induction l1 with
  | nil =>
    intro l2 h
    cases l2 with
    | nil => rfl
    | cons y ys => simp at h
  | cons x xs ih =>
    intro l2 h
    cases l2 with
    | nil => simp at h
    | cons y ys =>
      simp only [List.map_cons, List.cons.injEq] at h
      obtain ⟨_, h2, _, _, _⟩ := ingredientView_fields h.1
      simp only [List.any_cons, h2, ih ys h.2]

/-- C7: the recipes-page renderer reads only the listed match fields of a
row: two rows with the same display metadata whose match reports agree on
`match_percentage`, `matched_count`, `total_ingredients`, the five listed
fields of each matched ingredient, and `unmatched_ingredients` produce an
identical card, identical ingredient rows, the same filtering decision
for every search/store/category/nutrition input, and the same
sort-by-match comparisons. -/
theorem renderer_reads_only_listed_match_fields (r1 r2 : RecipeMatch)
    (hmeta : r1.meta = r2.meta)
    (hview : matchDataView r1 = matchDataView r2) :
    createRecipeCard r1 = createRecipeCard r2 ∧
      renderIngredientRows r1.matched_ingredients
        = renderIngredientRows r2.matched_ingredients ∧
      (∀ q st c act, filterRecipesPred q st c act r1
        = filterRecipesPred q st c act r2) ∧
      (∀ r', compareByMatch r1 r' = compareByMatch r2 r'
        ∧ compareByMatch r' r1 = compareByMatch r' r2) := by
  have hv := hview
  simp only [matchDataView, MatchDataView.mk.injEq] at hv
  obtain ⟨hpct, hmc, htot, hviews, hunm⟩ := hv
  have hrows := renderIngredientRows_congr hviews
  refine ⟨?_, hrows, ?_, ?_⟩
  · simp only [createRecipeCard, hmeta, hpct, hmc, htot, hrows]
  · intro q st c act
    simp only [filterRecipesPred, hmeta, hunm,
      any_search_congr q _ _ hviews, any_store_congr st _ _ hviews]
  · intro r'
    simp only [compareByMatch, hpct, and_self]

/-- Witness for C7: two rows differing only in the score field render the
same card. -/
theorem renderer_match_fields_witness :
    createRecipeCard demoRecipeA = createRecipeCard demoRecipeB :=
  (renderer_reads_only_listed_match_fields demoRecipeA demoRecipeB rfl rfl).1

/-- Witness for C4: a candidate scoring exactly at the threshold is
accepted, and with the threshold raised a hair above the same score the
candidate is rejected. -/
theorem find_matching_deals_threshold_witness :
    (find_matching_deals cfgBoundary "mjölkdryck" demoDeals).isSome ∧
      (find_matching_deals cfgStrict "mjölkdryck" demoDeals).isSome = false :=
  ⟨(find_matching_deals_threshold cfgBoundary "mjölkdryck" demoDeals).1.mpr
      ⟨{ store := "ICA Supermarket", name := "mjölk", price := "10:-",
         unit := "/l", description := "", ord_pris := "", jfr_pris := "" },
       by decide, by decide⟩,
   by decide⟩
